import Mathlib

/-!
Verification of the authorization core of the air-canada-lost-found backend.

The embedding translates, from the TypeScript source:
  * the permission data model (`models/Permission`, `models/User` grant refs),
  * the authentication middleware `auth` with its self-healing permission
    reconciliation (middleware/auth.ts),
  * the authorization predicates `matchesPermission`, `hasPermission`,
    `hasAnyPermission` (middleware/auth.ts),
  * the route-level guard compositions of `delivered-items.routes.ts`,
    `items.routes.ts` and `permission.routes.ts`,
  * the role baseline table `ROLE_PERMISSIONS` of `user.routes.ts` and the
    catalog seed list of the permission-initialisation script.

MongoDB documents are modelled as Lean structures, ObjectIds as `Nat`,
collections as lists, and each store mutation used by the middleware
(`findByIdAndUpdate` with `$set` / `$push`, `findByIdAndDelete`,
`updateMany` with `$pull`) as an explicit function on a `Store` value.
-/

namespace AirCanadaLF

/-- A document of the `permissions` collection (`models/Permission`): a
stable unique name plus an ObjectId.  The description/component/action
attributes play no role in any authorization decision and are omitted. -/
structure PermissionDoc where
  _id : Nat
  name : String
deriving DecidableEq

/-- The `Permission = string | IPermission` union of `middleware/auth.ts`
(line 21): a grant visible to the predicates is either a bare name string
or a resolved permission document. -/
inductive Perm where
  | str (s : String)
  | doc (p : PermissionDoc)
deriving DecidableEq

/-- `matchesPermission` of `middleware/auth.ts` (lines 29-39).  For a string
grant it compares by string equality; for a document grant both source
branches (`_id` is an object / `_id` is a string id) compare the `name`
field against the requested name. -/
def matchesPermission (permission : Perm) (permissionName : String) : Bool :=
  match permission with
  | .str s => s == permissionName
  | .doc p => p.name == permissionName

/-- The request-scoped user object placed on `req.user` by the `auth`
middleware (the `AuthenticatedRequest` shape of `middleware/auth.ts`,
lines 61-73; `firstName`/`lastName`/timestamps are never consulted by any
guard and are omitted). -/
structure ReqUser where
  _id : Nat
  employeeNumber : String
  role : String
  permissions : List Perm
deriving DecidableEq

/-- Outcome of one Express middleware: call `next()` or end the request
with a status and machine-readable code. -/
inductive MwResult where
  | next
  | respond (status : Nat) (code : String)
deriving DecidableEq

/-- `hasPermission(permissionName)` of `middleware/auth.ts` (lines 215-247):
403 `PERMISSION_DENIED` when there is no user on the request, `next()` when
some entry of the user's permission array matches the name, 403 otherwise.
(The source's `!user.permissions` null-guard collapses into the `none`
case here, since a Lean list is always present.) -/
def hasPermissionMw (permissionName : String) (user : Option ReqUser) : MwResult :=
  match user with
  | none => .respond 403 "PERMISSION_DENIED"
  | some u =>
      if u.permissions.any (fun p => matchesPermission p permissionName) then .next
      else .respond 403 "PERMISSION_DENIED"

/-- `hasAnyPermission(permissionNames)` of `middleware/auth.ts`
(lines 250-273): an `admin` role short-circuits to `next()`; otherwise the
request proceeds iff some grant matches some of the requested names. -/
def hasAnyPermissionMw (permissionNames : List String) (user : Option ReqUser) : MwResult :=
  match user with
  | some u =>
      if u.role == "admin" then .next
      else if u.permissions.any (fun p => permissionNames.any (fun n => matchesPermission p n)) then .next
      else .respond 403 "PERMISSION_DENIED"
  | none => .respond 403 "PERMISSION_DENIED"

/-- A document of the `users` collection (`models/User`): the grant set is a
list of ObjectId references into the permission collection.  Credentials and
names are irrelevant to the claims and omitted. -/
structure UserDoc where
  _id : Nat
  employeeNumber : String
  role : String
  permissions : List Nat
deriving DecidableEq

/-- The persistent store: the `users` and `permissions` collections. -/
structure Store where
  users : List UserDoc
  perms : List PermissionDoc
deriving DecidableEq

/-- Mongoose `populate('permissions')`: resolve each grant reference against
the permission collection; references that no longer resolve are dropped. -/
def populate (catalog : List PermissionDoc) (refs : List Nat) : List PermissionDoc :=
  refs.filterMap (fun i => catalog.find? (fun p => p._id == i))

/-- `User.findOne({_id: decoded._id, employeeNumber: decoded.employeeNumber})`
of `middleware/auth.ts` (lines 113-116): the account must match both the id
and the employee number embedded in the token. -/
def findUserByIdAndEmp (s : Store) (id : Nat) (emp : String) : Option UserDoc :=
  s.users.find? (fun u => u._id == id && u.employeeNumber == emp)

/-- `User.findByIdAndUpdate(uid, {$set: {permissions: newPerms}})`. -/
def setUserPermissions (s : Store) (uid : Nat) (newPerms : List Nat) : Store :=
  { s with users := s.users.map (fun u =>
      if u._id == uid then { u with permissions := newPerms } else u) }

/-- `User.findByIdAndUpdate(uid, {$push: {permissions: {$each: extra}}})`
(mongoose casts the pushed documents to their ObjectIds for a ref array). -/
def pushUserPermissions (s : Store) (uid : Nat) (extra : List Nat) : Store :=
  { s with users := s.users.map (fun u =>
      if u._id == uid then { u with permissions := u.permissions ++ extra } else u) }

/-- The literal name list of the `Permission.find({name: {$in: [...]}})`
query at `middleware/auth.ts` line 153 — the list the middleware backfills
for every non-admin account, whatever its role. -/
def requiredPermissionNames : List String :=
  ["view_dashboard", "view_all_items", "view_own_items", "create_items",
   "edit_all_items", "edit_own_items", "delete_all_items", "delete_own_items",
   "manage_users", "generate_reports", "deliver_items", "view_delivered_items",
   "view_own_delivered_items", "revert_delivered_status"]

/-- Outcome of the `auth` middleware: a terminal response, or `next()` with
the request-scoped user that the rest of the pipeline will consume. -/
inductive AuthOutcome where
  | respond (status : Nat) (code : String)
  | next (user : ReqUser)
deriving DecidableEq

/-- The post-verification body of the `auth` middleware of
`middleware/auth.ts` (lines 112-197), given the decoded token claims:

* load the account by id and employee number, populated (113-116);
  401 `USER_NOT_FOUND` when absent (118-123);
* admin branch (126-150): re-read the whole permission catalog, `$set` the
  account's grant set to all catalog ids, and place the updated, re-populated
  account on the request;
* non-admin branch (152-188): read the catalog entries named in
  `requiredPermissionNames`, compute the ones missing from the populated
  grant set by name, `$push` them when non-empty (162-166) — and then place
  `user.toObject()`, the account as loaded BEFORE the push, on the request
  (171-187). -/
def authReconcile (s : Store) (decodedId : Nat) (decodedEmp : String) :
    Store × AuthOutcome :=
  match findUserByIdAndEmp s decodedId decodedEmp with
  | none => (s, .respond 401 "USER_NOT_FOUND")
  | some user =>
      if user.role == "admin" then
        let allPermissions := s.perms
        let s' := setUserPermissions s user._id (allPermissions.map (fun p => p._id))
        (s', .next
          { _id := user._id, employeeNumber := user.employeeNumber, role := user.role,
            permissions := (populate s'.perms (allPermissions.map (fun p => p._id))).map .doc })
      else
        let requiredPermissions := s.perms.filter (fun p => requiredPermissionNames.contains p.name)
        let userPermissions := (populate s.perms user.permissions).map (fun p => p.name)
        let missingPermissions := requiredPermissions.filter (fun p => !(userPermissions.contains p.name))
        let s' := if missingPermissions.length > 0
          then pushUserPermissions s user._id (missingPermissions.map (fun p => p._id))
          else s
        (s', .next
          { _id := user._id, employeeNumber := user.employeeNumber, role := user.role,
            permissions := (populate s.perms user.permissions).map .doc })

/-- The error classes thrown by the `jsonwebtoken` library's `verify`:
`TokenExpiredError` past expiry, `JsonWebTokenError` for malformed input,
a bad signature, or a disallowed algorithm. -/
inductive JwtError where
  | tokenExpired
  | jsonWebTokenError
deriving DecidableEq

/-- The token claims the middleware reads (`JwtPayload`, lines 7-12; the
role/permissions snapshot in the token is never used by the middleware). -/
structure JwtPayload where
  _id : Nat
  employeeNumber : String
deriving DecidableEq

/-- A presented bearer token: whether it is well-formed and correctly signed
with the configured HS256 secret, its expiry timestamp, and its claims. -/
structure Token where
  wellSigned : Bool
  exp : Int
  payload : JwtPayload
deriving DecidableEq

/-- `jwt.verify(token, secret, {algorithms: ['HS256']})` (library semantics):
malformed/bad-signature/wrong-algorithm input throws `JsonWebTokenError`;
otherwise a token whose expiry is not in the future throws
`TokenExpiredError`; otherwise the decoded claims are returned. -/
def jwtVerify (t : Token) (now : Int) : Except JwtError JwtPayload :=
  if !t.wellSigned then .error .jsonWebTokenError
  else if t.exp ≤ now then .error .tokenExpired
  else .ok t.payload

/-- The whole `auth` middleware of `middleware/auth.ts` (lines 94-212):
401 `NO_TOKEN` without a bearer token (98-103); a single catch block maps
EVERY `jwt.verify` failure — expired tokens included — to
401 `INVALID_TOKEN` (198-204); on success the reconciliation body runs. -/
def authMw (s : Store) (token : Option Token) (now : Int) : Store × AuthOutcome :=
  match token with
  | none => (s, .respond 401 "NO_TOKEN")
  | some t =>
      match jwtVerify t now with
      | .error _ => (s, .respond 401 "INVALID_TOKEN")
      | .ok decoded => authReconcile s decoded._id decoded.employeeNumber

/-- A middleware chain continues past a guard only when it called `next()`. -/
def mwPasses (r : MwResult) : Bool :=
  match r with
  | .next => true
  | .respond _ _ => false

/-- In-handler permission check of `DELETE /:id` in
`delivered-items.routes.ts` (lines 218-230): the request is rejected with
403 only when the user is not admin, lacks `delete_all_items`, and does not
own the item (`item.foundBy.toString() === req.user._id.toString()`). -/
def deliveredDeleteHandlerCheck (u : ReqUser) (itemFoundBy : Nat) : Bool :=
  let isAdmin := u.role == "admin"
  let hasDeleteAllPermission := u.permissions.any (fun p => matchesPermission p "delete_all_items")
  let isOwner := itemFoundBy == u._id
  !(!isAdmin && !hasDeleteAllPermission && !isOwner)

/-- Full guard of `DELETE /:id` in `delivered-items.routes.ts` (line 211):
the route-level `hasAnyPermission(['delete_all_items','delete_own_items'])`
middleware followed by the in-handler check. -/
def deliveredDeleteAllows (u : ReqUser) (itemFoundBy : Nat) : Bool :=
  mwPasses (hasAnyPermissionMw ["delete_all_items", "delete_own_items"] (some u))
    && deliveredDeleteHandlerCheck u itemFoundBy

/-- In-handler permission check of `PUT /:id` in
`delivered-items.routes.ts` (lines 156-169): admins pass; a non-admin is
rejected with 403 when lacking `edit_all_items` and not owning the item. -/
def deliveredEditHandlerCheck (u : ReqUser) (itemFoundBy : Nat) : Bool :=
  if u.role == "admin" then true
  else
    let hasEditAllPermission := u.permissions.any (fun p => matchesPermission p "edit_all_items")
    !(!hasEditAllPermission && !(itemFoundBy == u._id))

/-- Full guard of `PUT /:id` in `delivered-items.routes.ts` (line 142):
the route-level `hasAnyPermission(['edit_all_items','edit_own_items'])`
middleware followed by the in-handler check. -/
def deliveredEditAllows (u : ReqUser) (itemFoundBy : Nat) : Bool :=
  mwPasses (hasAnyPermissionMw ["edit_all_items", "edit_own_items"] (some u))
    && deliveredEditHandlerCheck u itemFoundBy

/-- Guard of `PUT /:id` (lines 104-123) and `DELETE /:id` (lines 126-151)
in `items.routes.ts`: the route stack is `auth` alone, and neither handler
performs any role, permission, or ownership check — every authenticated
identity is admitted for any item. -/
def lostItemEditOrDeleteAllows (_u : ReqUser) (_itemFoundBy : Nat) : Bool :=
  true

/-- The composite resource-guard formula of the spec, §4.3:
`canActOnResource = role==admin OR HasPermission(identity, "<action>_all_items")
OR (HasPermission(identity, "<action>_own_items") AND Owns(identity, resource.foundBy))`.
Written from the spec's words, to be compared with the route guards. -/
def specCanActOnResource (u : ReqUser) (allName ownName : String) (resourceFoundBy : Nat) : Bool :=
  u.role == "admin"
    || u.permissions.any (fun p => matchesPermission p allName)
    || (u.permissions.any (fun p => matchesPermission p ownName) && resourceFoundBy == u._id)

/-- Guard of `POST /:id/revert` in `delivered-items.routes.ts` (line 259):
the middleware stack after `auth` is `hasPermission('admin')` — a lookup of
a permission NAMED `admin` in the grant set, not a role check. -/
def revertRouteGuard (u : ReqUser) : MwResult :=
  hasPermissionMw "admin" (some u)

/-- The catalog seed list of the permission-initialisation script (the
`PERMISSIONS` constant): the 13 baseline permission names; the script also
deletes any catalog entry whose name is not in this list. -/
def seededPermissionNames : List String :=
  ["view_dashboard", "view_all_items", "view_own_items", "create_items",
   "edit_all_items", "edit_own_items", "delete_all_items", "delete_own_items",
   "manage_users", "generate_reports", "deliver_items", "view_delivered_items",
   "revert_delivered_status"]

/-- The seeded Permission Catalog as documents, ids assigned by position. -/
def seededCatalog : List PermissionDoc :=
  seededPermissionNames.enum.map (fun x => ⟨x.1, x.2⟩)

/-- `ROLE_PERMISSIONS` of `user.routes.ts` (lines 14-50): the Role Policy
table mapping each role to its baseline permission names. -/
def ROLE_PERMISSIONS (role : String) : List String :=
  if role == "admin" then
    ["view_dashboard", "view_all_items", "view_own_items", "create_items",
     "edit_all_items", "edit_own_items", "delete_all_items", "delete_own_items",
     "manage_users", "generate_reports", "deliver_items", "view_delivered_items"]
  else if role == "supervisor" then
    ["view_dashboard", "view_all_items", "view_own_items", "create_items",
     "edit_all_items", "edit_own_items", "delete_all_items", "delete_own_items",
     "deliver_items", "view_delivered_items"]
  else if role == "employee" then
    ["view_dashboard", "view_own_items", "create_items", "edit_own_items",
     "delete_own_items", "deliver_items", "view_delivered_items"]
  else []

/-- Outcome of the permission-deletion route. -/
inductive DeleteOutcome where
  | notFound
  | deleted
deriving DecidableEq

/-- Store mutation of `DELETE /:id` in `permission.routes.ts`
(lines 88-97), past the admin gate: `Permission.findByIdAndDelete` (404 when
the id resolves to nothing), then
`User.updateMany({permissions: pid}, {$pull: {permissions: pid}})` — every
user document whose grant array contains the deleted id has all occurrences
of that id pulled out. -/
def deletePermissionRoute (s : Store) (pid : Nat) : Store × DeleteOutcome :=
  match s.perms.find? (fun p => p._id == pid) with
  | none => (s, .notFound)
  | some _ =>
      let permsAfter := s.perms.eraseP (fun p => p._id == pid)
      let usersAfter := s.users.map (fun u =>
        if u.permissions.contains pid
        then { u with permissions := u.permissions.filter (fun r => !(r == pid)) }
        else u)
      ({ users := usersAfter, perms := permsAfter }, .deleted)

/-- The permission documents the non-admin branch of `auth` will push for a
given account: the catalog entries named in `requiredPermissionNames` whose
names are missing from the account's populated grant set (the
`missingPermissions` value of `middleware/auth.ts` line 158). -/
def missingFor (s : Store) (u : UserDoc) : List PermissionDoc :=
  (s.perms.filter (fun p => requiredPermissionNames.contains p.name)).filter
    (fun p => !(((populate s.perms u.permissions).map (fun q => q.name)).contains p.name))

/-- The admin identity produced by reconciliation against the seeded
catalog: role `admin`, grant set resolved to the full 13-permission seed. -/
def seededAdminIdentity : ReqUser :=
  { _id := 1, employeeNumber := "AC000001", role := "admin",
    permissions := seededCatalog.map Perm.doc }

/-! ## Helper lemmas -/

/-- `List.any` over a pointwise disjunction of two `matchesPermission`
checks splits into a disjunction of two `List.any`s. -/
theorem any_match_or (l : List Perm) (n₁ n₂ : String) :
    (l.any fun p => matchesPermission p n₁ || matchesPermission p n₂)
      = ((l.any fun p => matchesPermission p n₁) || (l.any fun p => matchesPermission p n₂)) := by
  induction l with
  | nil => rfl
  | cons a t ih =>
      simp only [List.any_cons, ih]
      cases matchesPermission a n₁ <;> cases matchesPermission a n₂ <;>
        cases t.any (fun p => matchesPermission p n₁) <;>
        cases t.any (fun p => matchesPermission p n₂) <;> rfl

theorem find?_map_comm (f : UserDoc → UserDoc) (q : UserDoc → Bool) (l : List UserDoc)
    (h : ∀ w, q (f w) = q w) :
    (l.map f).find? q = (l.find? q).map f := by
  induction l with
  | nil => rfl
  | cons a t ih =>
      by_cases hqa : q a = true
      · simp only [List.map_cons]
        rw [List.find?_cons_of_pos _ (show q (f a) = true by rw [h a]; exact hqa),
          List.find?_cons_of_pos _ hqa]
        rfl
      · simp only [List.map_cons]
        rw [List.find?_cons_of_neg _ (show ¬ q (f a) = true by rw [h a]; exact hqa),
          List.find?_cons_of_neg _ hqa]
        exact ih

theorem findUser_setPerms (s : Store) (uid : Nat) (v : List Nat) (id : Nat) (emp : String) :
    findUserByIdAndEmp (setUserPermissions s uid v) id emp
      = (findUserByIdAndEmp s id emp).map
          (fun w => if w._id == uid then { w with permissions := v } else w) := by
  unfold findUserByIdAndEmp setUserPermissions
  apply find?_map_comm
  intro w
  by_cases hw : (w._id == uid) = true
  · rw [if_pos hw]
  · rw [if_neg hw]

theorem findUser_pushPerms (s : Store) (uid : Nat) (extra : List Nat) (id : Nat) (emp : String) :
    findUserByIdAndEmp (pushUserPermissions s uid extra) id emp
      = (findUserByIdAndEmp s id emp).map
          (fun w => if w._id == uid then { w with permissions := w.permissions ++ extra } else w) := by
  unfold findUserByIdAndEmp pushUserPermissions
  apply find?_map_comm
  intro w
  by_cases hw : (w._id == uid) = true
  · rw [if_pos hw]
  · rw [if_neg hw]

theorem populate_append (c : List PermissionDoc) (l₁ l₂ : List Nat) :
    populate c (l₁ ++ l₂) = populate c l₁ ++ populate c l₂ := by
  unfold populate
  exact List.filterMap_append l₁ l₂ _

theorem find?_id_self (c : List PermissionDoc) (hnd : (c.map (fun p => p._id)).Nodup)
    (p : PermissionDoc) (hp : p ∈ c) :
    c.find? (fun q => q._id == p._id) = some p := by
  cases hfind : c.find? (fun q => q._id == p._id) with
  | none =>
      rw [List.find?_eq_none] at hfind
      exact absurd (by simp : ((p._id == p._id) = true)) (hfind p hp)
  | some q =>
      have h1 := List.find?_some hfind
      have h2 : q ∈ c := List.mem_of_find?_eq_some hfind
      have h3 : q = p := List.inj_on_of_nodup_map hnd h2 hp (by simpa using h1)
      rw [h3]

theorem populate_map_id (c : List PermissionDoc) (hnd : (c.map (fun p => p._id)).Nodup)
    (l : List PermissionDoc) (hl : ∀ p ∈ l, p ∈ c) :
    populate c (l.map (fun p => p._id)) = l := by
  induction l with
  | nil => rfl
  | cons a t ih =>
      rw [List.map_cons]
      unfold populate
      rw [List.filterMap_cons_some (by exact find?_id_self c hnd a (hl a (List.mem_cons_self a t)))]
      show a :: populate c (t.map (fun p => p._id)) = a :: t
      rw [ih (fun p hp => hl p (List.mem_cons_of_mem a hp))]

theorem mem_map_update_eq (l : List UserDoc) (hnd : (l.map (fun w => w._id)).Nodup)
    (f : UserDoc → UserDoc) (hfid : ∀ w, (f w)._id = w._id)
    (u : UserDoc) (hu : u ∈ l)
    (v : UserDoc) (hv : v ∈ l.map f) (hid : v._id = u._id) : v = f u := by
  rw [List.mem_map] at hv
  obtain ⟨w, hw, hfw⟩ := hv
  have hwu : w = u := List.inj_on_of_nodup_map hnd hw hu (by rw [← hfid w, hfw, hid])
  rw [← hfw, hwu]

theorem authReconcile_store_admin (s : Store) (id : Nat) (emp : String) (u : UserDoc)
    (hfind : findUserByIdAndEmp s id emp = some u) (hrole : (u.role == "admin") = true) :
    (authReconcile s id emp).1 = setUserPermissions s u._id (s.perms.map (fun p => p._id)) := by
  unfold authReconcile
  rw [hfind]
  simp only [hrole, if_true]

theorem authReconcile_store_nonadmin (s : Store) (id : Nat) (emp : String) (u : UserDoc)
    (hfind : findUserByIdAndEmp s id emp = some u) (hrole : (u.role == "admin") = false) :
    (authReconcile s id emp).1 =
      if (missingFor s u).length > 0
      then pushUserPermissions s u._id ((missingFor s u).map (fun p => p._id))
      else s := by
  unfold authReconcile missingFor
  rw [hfind]
  simp only [hrole, Bool.false_eq_true, if_false]

theorem map_idem_of_comp (f : UserDoc → UserDoc) (hf : ∀ x, f (f x) = f x) (l : List UserDoc) :
    (l.map f).map f = l.map f := by
  induction l with
  | nil => rfl
  | cons a t ih => simp only [List.map_cons, ih, hf a]

theorem setUserPermissions_idem (s : Store) (uid : Nat) (v : List Nat) :
    setUserPermissions (setUserPermissions s uid v) uid v = setUserPermissions s uid v := by
  unfold setUserPermissions
  have h := map_idem_of_comp (fun w => if w._id == uid then { w with permissions := v } else w)
    (fun w => by by_cases hw : (w._id == uid) = true <;> simp [hw]) s.users
  simp only at h ⊢
  rw [h]

/-! ## Claim theorems -/

/-- Claim C9: the single-permission guard `hasPermission(name)` never
consults the identity's role — it admits the request iff some entry of the
permission array matches the name, and an identity without a matching entry
is denied 403 `PERMISSION_DENIED` even when its role is admin. -/
theorem C9_hasPermission_ignores_role (u : ReqUser) (name : String) :
    (hasPermissionMw name (some u) = .next
        ↔ (u.permissions.any fun p => matchesPermission p name) = true)
    ∧ ((u.permissions.any fun p => matchesPermission p name) = false
        → hasPermissionMw name (some u) = .respond 403 "PERMISSION_DENIED") := by
  unfold hasPermissionMw
  cases h : u.permissions.any fun p => matchesPermission p name <;> simp [h]

/-- Witness for C9: an admin-role identity with an empty permission array is
denied by `hasPermission("manage_users")`. -/
theorem C9_witness :
    hasPermissionMw "manage_users" (some ⟨1, "AC000001", "admin", []⟩)
      = .respond 403 "PERMISSION_DENIED" :=
  (C9_hasPermission_ignores_role ⟨1, "AC000001", "admin", []⟩ "manage_users").2 rfl

/-- Claim C4: the revert route is guarded by `hasPermission('admin')`, a
lookup of a permission NAMED `admin`; the seeded catalog contains no such
permission, so an admin holding the entire seeded catalog is denied
403 `PERMISSION_DENIED` — the admin-OR-all-OR-own pattern is not reproduced
for the revert action. -/
theorem C4_revert_guard_denies_admin :
    seededAdminIdentity.role = "admin"
    ∧ "admin" ∉ seededPermissionNames
    ∧ revertRouteGuard seededAdminIdentity = .respond 403 "PERMISSION_DENIED" := by
  decide

/-- Claim C5 counterexample: the lost-item delete route admits an
authenticated employee with an empty grant set for an item it does not own,
while the spec's composite formula denies it; the claimed equivalence fails
on `items.routes.ts`. -/
theorem C5_counterexample :
    lostItemEditOrDeleteAllows ⟨10, "E010", "employee", []⟩ 99 = true
    ∧ specCanActOnResource ⟨10, "E010", "employee", []⟩ "delete_all_items" "delete_own_items" 99
        = false := by
  decide

/-- Claim C5 amended: for the delivered-item routes, the combination of the
route-level `hasAnyPermission` middleware and the in-handler check is
equivalent to the composite formula
admin OR `<action>_all_items` OR (`<action>_own_items` AND owner), for both
the delete and the edit action. -/
theorem C5_delivered_guards_match_formula (u : ReqUser) (fb : Nat) :
    deliveredDeleteAllows u fb
        = specCanActOnResource u "delete_all_items" "delete_own_items" fb
    ∧ deliveredEditAllows u fb
        = specCanActOnResource u "edit_all_items" "edit_own_items" fb := by
  constructor
  · simp only [deliveredDeleteAllows, deliveredDeleteHandlerCheck, hasAnyPermissionMw,
      specCanActOnResource, List.any_cons, List.any_nil, Bool.or_false, any_match_or]
    cases hA : u.role == "admin" <;>
      cases hB : u.permissions.any (fun p => matchesPermission p "delete_all_items") <;>
      cases hC : u.permissions.any (fun p => matchesPermission p "delete_own_items") <;>
      cases hD : fb == u._id <;>
      simp [hA, hB, hC, hD, mwPasses]
  · simp only [deliveredEditAllows, deliveredEditHandlerCheck, hasAnyPermissionMw,
      specCanActOnResource, List.any_cons, List.any_nil, Bool.or_false, any_match_or]
    cases hA : u.role == "admin" <;>
      cases hB : u.permissions.any (fun p => matchesPermission p "edit_all_items") <;>
      cases hC : u.permissions.any (fun p => matchesPermission p "edit_own_items") <;>
      cases hD : fb == u._id <;>
      simp [hA, hB, hC, hD, mwPasses]

/-- Claim C8 counterexample: a token expired one unit before `now` and a
badly signed token are both rejected with the SAME 401 `INVALID_TOKEN`
response — there is no distinct expired-token error. -/
theorem C8_counterexample :
    (authMw (Store.mk [] []) (some { wellSigned := true, exp := 999, payload := ⟨1, "E1"⟩ }) 1000).2
        = .respond 401 "INVALID_TOKEN"
    ∧ (authMw (Store.mk [] []) (some { wellSigned := false, exp := 2000, payload := ⟨1, "E1"⟩ }) 1000).2
        = .respond 401 "INVALID_TOKEN" := by
  decide

/-- Claim C8 amended: every token-verification failure — expiry and
malformed/bad-signature alike — is mapped by the middleware's single catch
block to the one 401 `INVALID_TOKEN` response. -/
theorem C8_all_verify_failures_invalid_token (s : Store) (t : Token) (now : Int)
    (e : JwtError) (h : jwtVerify t now = .error e) :
    authMw s (some t) now = (s, .respond 401 "INVALID_TOKEN") := by
  have hm : authMw s (some t) now =
      match jwtVerify t now with
      | .error _ => (s, .respond 401 "INVALID_TOKEN")
      | .ok decoded => authReconcile s decoded._id decoded.employeeNumber := rfl
  rw [hm, h]

/-- Witness for C8 amended: the expired token of the counterexample. -/
theorem C8_witness :
    authMw (Store.mk [] []) (some { wellSigned := true, exp := 999, payload := ⟨1, "E1"⟩ }) 1000
      = (Store.mk [] [], .respond 401 "INVALID_TOKEN") :=
  C8_all_verify_failures_invalid_token (Store.mk [] [])
    { wellSigned := true, exp := 999, payload := ⟨1, "E1"⟩ } 1000 .tokenExpired rfl

/-- Claim C10: the middleware looks the account up by BOTH the token's id
and the token's employee number; when the stored employee number differs
from the token's, the request is rejected 401 `USER_NOT_FOUND` and the
store is untouched. -/
theorem C10_stale_employee_number_rejected (s : Store) (id : Nat) (tokenEmp : String)
    (u : UserDoc) (hu : u ∈ s.users) (hid : u._id = id)
    (hemp : u.employeeNumber ≠ tokenEmp)
    (hids : (s.users.map (fun w => w._id)).Nodup) :
    authReconcile s id tokenEmp = (s, .respond 401 "USER_NOT_FOUND") := by
  have hnone : findUserByIdAndEmp s id tokenEmp = none := by
    unfold findUserByIdAndEmp
    rw [List.find?_eq_none]
    intro w hw hmatch
    simp only [Bool.and_eq_true, beq_iff_eq] at hmatch
    have hwu : w = u := by
      apply List.inj_on_of_nodup_map hids hw hu
      rw [hmatch.1, hid]
    exact hemp (by rw [← hwu]; exact hmatch.2)
  unfold authReconcile
  rw [hnone]

/-- Witness for C10: the store holds account id 1 with employee number
`OLD`; a token carrying id 1 and employee number `NEW` is rejected. -/
theorem C10_witness :
    authReconcile (Store.mk [⟨1, "OLD", "employee", []⟩] []) 1 "NEW"
      = (Store.mk [⟨1, "OLD", "employee", []⟩] [], .respond 401 "USER_NOT_FOUND") :=
  C10_stale_employee_number_rejected (Store.mk [⟨1, "OLD", "employee", []⟩] []) 1 "NEW"
    ⟨1, "OLD", "employee", []⟩ (by decide) rfl (by decide) (by decide)

/-- Claim C2: after reconciliation of an admin account, every stored user
document carrying that account's id has its persisted grant set equal to
the entire current permission catalog, whatever the catalog contents. -/
theorem C2_admin_reconcile_full_catalog (s : Store) (id : Nat) (emp : String)
    (u : UserDoc) (hfind : findUserByIdAndEmp s id emp = some u)
    (hrole : u.role = "admin")
    (v : UserDoc) (hv : v ∈ (authReconcile s id emp).1.users) (hid : v._id = u._id) :
    v.permissions = s.perms.map (fun p => p._id) := by
  unfold authReconcile at hv
  rw [hfind] at hv
  simp only [hrole, beq_self_eq_true, if_true] at hv
  have hv' : v ∈ s.users.map (fun w =>
      if w._id == u._id then { w with permissions := s.perms.map (fun p => p._id) } else w) := hv
  rw [List.mem_map] at hv'
  obtain ⟨w, hw, hfw⟩ := hv'
  by_cases hwid : (w._id == u._id) = true
  · rw [if_pos hwid] at hfw
    rw [← hfw]
  · rw [if_neg (by simpa using hwid)] at hfw
    exact absurd (by rw [← hfw] at hid; simpa using hid) (by simpa using hwid)

/-- Witness for C2: an admin with an empty grant set, against a two-entry
catalog, ends with exactly the two catalog references persisted. -/
theorem C2_witness :
    (⟨1, "A1", "admin", [5, 6]⟩ : UserDoc).permissions
      = (Store.mk [⟨1, "A1", "admin", []⟩] [⟨5, "x"⟩, ⟨6, "y"⟩]).perms.map (fun p => p._id) :=
  C2_admin_reconcile_full_catalog (Store.mk [⟨1, "A1", "admin", []⟩] [⟨5, "x"⟩, ⟨6, "y"⟩])
    1 "A1" ⟨1, "A1", "admin", []⟩ rfl rfl ⟨1, "A1", "admin", [5, 6]⟩ (by decide) rfl

/-- Claim C7: after a successful permission deletion, no stored account's
grant set contains a reference to the deleted permission. -/
theorem C7_delete_permission_no_dangling (s : Store) (pid : Nat)
    (hdel : (deletePermissionRoute s pid).2 = .deleted)
    (u : UserDoc) (hu : u ∈ (deletePermissionRoute s pid).1.users) :
    pid ∉ u.permissions := by
  unfold deletePermissionRoute at hdel hu
  cases hfind : s.perms.find? (fun p => p._id == pid) with
  | none =>
      rw [hfind] at hdel
      exact DeleteOutcome.noConfusion hdel
  | some q =>
      rw [hfind] at hu
      have hu' : u ∈ s.users.map (fun w =>
          if w.permissions.contains pid
          then { w with permissions := w.permissions.filter (fun r => !(r == pid)) }
          else w) := hu
      rw [List.mem_map] at hu'
      obtain ⟨w, hw, hfw⟩ := hu'
      by_cases hc : w.permissions.contains pid
      · rw [if_pos hc] at hfw
        intro hmem
        rw [← hfw] at hmem
        simp only [List.mem_filter] at hmem
        simpa using hmem.2
      · rw [if_neg hc] at hfw
        intro hmem
        rw [← hfw] at hmem
        exact hc (by simpa [List.contains] using hmem)

/-- Witness for C7: permission 7 is granted to account 1; after deleting
permission 7 the account's grant set no longer references it. -/
theorem C7_witness :
    (7 : Nat) ∉ (⟨1, "A", "employee", []⟩ : UserDoc).permissions :=
  C7_delete_permission_no_dangling
    (Store.mk [⟨1, "A", "employee", [7]⟩] [⟨7, "P"⟩]) 7 rfl
    ⟨1, "A", "employee", []⟩ (by decide)

/-- Claim C3 counterexample: reconciliation of a permissionless employee
against a catalog holding `view_dashboard` persists the backfilled grant,
yet the request-scoped identity handed to the rest of the pipeline still
carries the EMPTY pre-append permission array. -/
theorem C3_counterexample :
    (authReconcile (Store.mk [⟨10, "E1", "employee", []⟩] [⟨1, "view_dashboard"⟩]) 10 "E1").1.users
        = [⟨10, "E1", "employee", [1]⟩]
    ∧ (authReconcile (Store.mk [⟨10, "E1", "employee", []⟩] [⟨1, "view_dashboard"⟩]) 10 "E1").2
        = .next ⟨10, "E1", "employee", []⟩ := by
  decide

/-- Claim C3 amended: for every non-admin account the effective identity
placed on the request is built from `user.toObject()` as loaded BEFORE the
append — its permission array is the resolution of the pre-append grant
set, not the appended one. -/
theorem C3_identity_carries_preappend_set (s : Store) (id : Nat) (emp : String)
    (u : UserDoc) (hfind : findUserByIdAndEmp s id emp = some u)
    (hrole : u.role ≠ "admin") :
    (authReconcile s id emp).2 = .next
      { _id := u._id, employeeNumber := u.employeeNumber, role := u.role,
        permissions := (populate s.perms u.permissions).map Perm.doc } := by
  unfold authReconcile
  rw [hfind]
  have hb : (u.role == "admin") = false := by simpa using hrole
  simp only [hb, Bool.false_eq_true, if_false]

/-- Witness for C3 amended: the counterexample's store, where the effective
identity resolves the empty pre-append grant set. -/
theorem C3_witness :
    (authReconcile (Store.mk [⟨10, "E1", "employee", []⟩] [⟨1, "view_dashboard"⟩]) 10 "E1").2
      = .next
        { _id := 10, employeeNumber := "E1", role := "employee",
          permissions := (populate [⟨1, "view_dashboard"⟩] []).map Perm.doc } :=
  C3_identity_carries_preappend_set
    (Store.mk [⟨10, "E1", "employee", []⟩] [⟨1, "view_dashboard"⟩]) 10 "E1"
    ⟨10, "E1", "employee", []⟩ rfl (by decide)

/-- Claim C1 counterexample: a permissionless employee reconciled against a
catalog holding `manage_users` — a permission OUTSIDE the employee baseline
of `ROLE_PERMISSIONS` — ends with a persisted reference to it. -/
theorem C1_counterexample :
    (authReconcile (Store.mk [⟨10, "E1", "employee", []⟩] [⟨1, "manage_users"⟩]) 10 "E1").1.users
        = [⟨10, "E1", "employee", [1]⟩]
    ∧ "manage_users" ∉ ROLE_PERMISSIONS "employee" := by
  decide

/-- Claim C6: reconciliation is idempotent on the store — with a fixed
catalog (with the unique-ObjectId property MongoDB guarantees), running the
`auth` reconciliation twice in succession yields the same store as running
it once: the second run performs no further change. -/
theorem C6_reconcile_idempotent (s : Store) (id : Nat) (emp : String)
    (hndp : (s.perms.map (fun p => p._id)).Nodup) :
    (authReconcile (authReconcile s id emp).1 id emp).1 = (authReconcile s id emp).1 := by
  cases hfind : findUserByIdAndEmp s id emp with
  | none =>
      have h1 : (authReconcile s id emp).1 = s := by
        unfold authReconcile; rw [hfind]
      rw [h1]
      exact h1
  | some u =>
      cases hrole : u.role == "admin" with
      | true =>
          have h1 : (authReconcile s id emp).1
              = setUserPermissions s u._id (s.perms.map (fun p => p._id)) :=
            authReconcile_store_admin s id emp u hfind hrole
          have hfind2 : findUserByIdAndEmp (setUserPermissions s u._id (s.perms.map (fun p => p._id))) id emp
              = some { u with permissions := s.perms.map (fun p => p._id) } := by
            rw [findUser_setPerms, hfind]
            simp
          have h2 : (authReconcile (setUserPermissions s u._id (s.perms.map (fun p => p._id))) id emp).1
              = setUserPermissions (setUserPermissions s u._id (s.perms.map (fun p => p._id)))
                  ({ u with permissions := s.perms.map (fun p => p._id) } : UserDoc)._id
                  ((setUserPermissions s u._id (s.perms.map (fun p => p._id))).perms.map (fun p => p._id)) :=
            authReconcile_store_admin _ id emp _ hfind2 hrole
          rw [h1, h2]
          exact setUserPermissions_idem s u._id (s.perms.map (fun p => p._id))
      | false =>
          have h1 : (authReconcile s id emp).1 =
              if (missingFor s u).length > 0
              then pushUserPermissions s u._id ((missingFor s u).map (fun p => p._id))
              else s := authReconcile_store_nonadmin s id emp u hfind hrole
          by_cases hmp : (missingFor s u).length > 0
          · rw [if_pos hmp] at h1
            have hfind2 : findUserByIdAndEmp
                (pushUserPermissions s u._id ((missingFor s u).map (fun p => p._id))) id emp
                = some { u with permissions :=
                    u.permissions ++ (missingFor s u).map (fun p => p._id) } := by
              rw [findUser_pushPerms, hfind]
              simp
            have hsubmiss : ∀ q ∈ missingFor s u, q ∈ s.perms := by
              intro q hq
              exact (List.mem_filter.mp ((List.mem_filter.mp hq).1)).1
            have hnames : (populate s.perms
                (u.permissions ++ (missingFor s u).map (fun p => p._id))).map (fun p => p.name)
                = (populate s.perms u.permissions).map (fun p => p.name)
                  ++ (missingFor s u).map (fun p => p.name) := by
              rw [populate_append, List.map_append, populate_map_id s.perms hndp _ hsubmiss]
            have hmiss2 : missingFor
                (pushUserPermissions s u._id ((missingFor s u).map (fun p => p._id)))
                { u with permissions := u.permissions ++ (missingFor s u).map (fun p => p._id) }
                = [] := by
              show ((s.perms.filter (fun p => requiredPermissionNames.contains p.name)).filter
                (fun p => !(((populate s.perms
                  (u.permissions ++ (missingFor s u).map (fun q => q._id))).map
                    (fun q => q.name)).contains p.name))) = []
              rw [List.filter_eq_nil_iff]
              intro p hp hcontra
              have hpn : p.name ∈ (populate s.perms
                  (u.permissions ++ (missingFor s u).map (fun q => q._id))).map (fun q => q.name) := by
                rw [hnames]
                rw [List.mem_append]
                by_cases hold : p.name ∈ (populate s.perms u.permissions).map (fun q => q.name)
                · exact Or.inl hold
                · refine Or.inr ?_
                  rw [List.mem_map]
                  refine ⟨p, ?_, rfl⟩
                  unfold missingFor
                  rw [List.mem_filter]
                  refine ⟨hp, ?_⟩
                  show (!(((populate s.perms u.permissions).map (fun q => q.name)).contains p.name)) = true
                  cases hc : ((populate s.perms u.permissions).map (fun q => q.name)).contains p.name
                  · rfl
                  · exact absurd (List.elem_iff.mp hc) hold
              have hcf : ((populate s.perms
                  (u.permissions ++ (missingFor s u).map (fun q => q._id))).map
                    (fun q => q.name)).contains p.name = false := by
                simpa using hcontra
              have hct : ((populate s.perms
                  (u.permissions ++ (missingFor s u).map (fun q => q._id))).map
                    (fun q => q.name)).contains p.name = true :=
                List.elem_eq_true_of_mem hpn
              rw [hcf] at hct
              exact Bool.false_ne_true hct
            have h2 : (authReconcile
                (pushUserPermissions s u._id ((missingFor s u).map (fun p => p._id))) id emp).1 =
                pushUserPermissions s u._id ((missingFor s u).map (fun p => p._id)) := by
              rw [authReconcile_store_nonadmin _ id emp _ hfind2 hrole, hmiss2]
              simp
            rw [h1, h2]
          · rw [if_neg hmp] at h1
            rw [h1]
            exact h1

/-- Claim C1 amended: for a non-admin account, the permission names in the
persisted grant set after reconciliation are exactly the old names plus
every catalog name that occurs in the fixed 14-entry
`requiredPermissionNames` list — the same list for every non-admin role,
NOT the role's baseline; in particular `manage_users` or `edit_all_items`
are appended for an employee whenever the catalog holds them. -/
theorem C1_nonadmin_backfill_fixed_list (s : Store) (id : Nat) (emp : String)
    (u : UserDoc) (hfind : findUserByIdAndEmp s id emp = some u)
    (hrole : u.role ≠ "admin")
    (hndu : (s.users.map (fun w => w._id)).Nodup)
    (hndp : (s.perms.map (fun p => p._id)).Nodup)
    (v : UserDoc) (hv : v ∈ (authReconcile s id emp).1.users) (hid : v._id = u._id)
    (n : String) :
    n ∈ (populate s.perms v.permissions).map (fun p => p.name)
      ↔ (n ∈ (populate s.perms u.permissions).map (fun p => p.name)
          ∨ (n ∈ requiredPermissionNames ∧ n ∈ s.perms.map (fun p => p.name))) := by
  have hroleb : (u.role == "admin") = false := by simpa using hrole
  have h1 := authReconcile_store_nonadmin s id emp u hfind hroleb
  have humem : u ∈ s.users := List.mem_of_find?_eq_some hfind
  have hmissnames : ∀ m : String,
      m ∈ (missingFor s u).map (fun p => p.name)
        ↔ (m ∈ requiredPermissionNames ∧ m ∈ s.perms.map (fun p => p.name)
            ∧ m ∉ (populate s.perms u.permissions).map (fun p => p.name)) := by
    intro m
    constructor
    · intro hm
      rw [List.mem_map] at hm
      obtain ⟨p, hp, hpn⟩ := hm
      have hp1 := List.mem_filter.mp hp
      have hp2 := List.mem_filter.mp hp1.1
      refine ⟨?_, ?_, ?_⟩
      · rw [← hpn]
        exact List.elem_iff.mp hp2.2
      · rw [← hpn, List.mem_map]
        exact ⟨p, hp2.1, rfl⟩
      · rw [← hpn]
        intro hmem
        have hcf : (((populate s.perms u.permissions).map (fun q => q.name)).contains p.name) = false := by
          simpa using hp1.2
        have hct : (((populate s.perms u.permissions).map (fun q => q.name)).contains p.name) = true :=
          List.elem_eq_true_of_mem hmem
        rw [hcf] at hct
        exact Bool.false_ne_true hct
    · rintro ⟨hreq, hcat, hnot⟩
      rw [List.mem_map] at hcat
      obtain ⟨p, hp, hpn⟩ := hcat
      rw [List.mem_map]
      refine ⟨p, ?_, hpn⟩
      unfold missingFor
      rw [List.mem_filter]
      constructor
      · rw [List.mem_filter]
        refine ⟨hp, ?_⟩
        show requiredPermissionNames.contains p.name = true
        rw [hpn]
        exact List.elem_eq_true_of_mem hreq
      · show (!(((populate s.perms u.permissions).map (fun q => q.name)).contains p.name)) = true
        cases hc : ((populate s.perms u.permissions).map (fun q => q.name)).contains p.name
        · rfl
        · exact absurd (hpn ▸ List.elem_iff.mp hc) hnot
  by_cases hmp : (missingFor s u).length > 0
  · rw [if_pos hmp] at h1
    have hveq : v = (fun w => if w._id == u._id
        then { w with permissions := w.permissions ++ (missingFor s u).map (fun p => p._id) }
        else w) u := by
      apply mem_map_update_eq s.users hndu
        (fun w => if w._id == u._id
          then { w with permissions := w.permissions ++ (missingFor s u).map (fun p => p._id) }
          else w) ?_ u humem v ?_ hid
      · intro w
        by_cases hw : (w._id == u._id) = true <;> simp [hw]
      · rw [h1] at hv
        exact hv
    have hvp : v.permissions = u.permissions ++ (missingFor s u).map (fun p => p._id) := by
      rw [hveq]
      simp
    rw [hvp]
    have hsubmiss : ∀ q ∈ missingFor s u, q ∈ s.perms := by
      intro q hq
      exact (List.mem_filter.mp ((List.mem_filter.mp hq).1)).1
    rw [populate_append, List.map_append, populate_map_id s.perms hndp _ hsubmiss,
      List.mem_append]
    constructor
    · rintro (hold | hmissn)
      · exact Or.inl hold
      · have hm := (hmissnames n).mp hmissn
        exact Or.inr ⟨hm.1, hm.2.1⟩
    · rintro (hold | ⟨hreq, hcat⟩)
      · exact Or.inl hold
      · by_cases holdn : n ∈ (populate s.perms u.permissions).map (fun p => p.name)
        · exact Or.inl holdn
        · exact Or.inr ((hmissnames n).mpr ⟨hreq, hcat, holdn⟩)
  · rw [if_neg hmp] at h1
    have hveq : v = u := by
      rw [h1] at hv
      exact List.inj_on_of_nodup_map hndu hv humem hid
    rw [hveq]
    have hzero : missingFor s u = [] := by
      exact List.length_eq_zero.mp (Nat.eq_zero_of_not_pos hmp)
    constructor
    · exact Or.inl
    · rintro (hold | ⟨hreq, hcat⟩)
      · exact hold
      · by_cases holdn : n ∈ (populate s.perms u.permissions).map (fun p => p.name)
        · exact holdn
        · have hin : n ∈ (missingFor s u).map (fun p => p.name) :=
            (hmissnames n).mpr ⟨hreq, hcat, holdn⟩
          rw [hzero] at hin
          exact absurd hin (List.not_mem_nil n)

/-- Witness for C6: a concrete employee with one extra grant against a
two-entry catalog; the second reconciliation changes nothing. -/
theorem C6_witness :
    (authReconcile (authReconcile (Store.mk [⟨10, "E1", "employee", [3]⟩]
        [⟨1, "manage_users"⟩, ⟨3, "extra_perm"⟩]) 10 "E1").1 10 "E1").1
      = (authReconcile (Store.mk [⟨10, "E1", "employee", [3]⟩]
        [⟨1, "manage_users"⟩, ⟨3, "extra_perm"⟩]) 10 "E1").1 :=
  C6_reconcile_idempotent (Store.mk [⟨10, "E1", "employee", [3]⟩]
    [⟨1, "manage_users"⟩, ⟨3, "extra_perm"⟩]) 10 "E1" (by decide)

/-- Witness for C1 amended: the permissionless employee of the
counterexample ends up holding `manage_users` because it is on the fixed
required list and in the catalog. -/
theorem C1_witness :
    "manage_users" ∈ (populate [⟨1, "manage_users"⟩] [1]).map (fun p => p.name)
      ↔ ("manage_users" ∈ (populate [⟨1, "manage_users"⟩] ([] : List Nat)).map (fun p => p.name)
          ∨ ("manage_users" ∈ requiredPermissionNames
              ∧ "manage_users" ∈ ([(⟨1, "manage_users"⟩ : PermissionDoc)]).map (fun p => p.name))) :=
  C1_nonadmin_backfill_fixed_list
    (Store.mk [⟨10, "E1", "employee", []⟩] [⟨1, "manage_users"⟩]) 10 "E1"
    ⟨10, "E1", "employee", []⟩ rfl (by decide) (by decide) (by decide)
    ⟨10, "E1", "employee", [1]⟩ (by decide) rfl "manage_users"

end AirCanadaLF
